import Mathlib

/-!
Verification of the laravel2erd schema-extraction core.

The JavaScript sources (`src/lib/parser.js`, `src/lib/renderer.js`,
`src/lib/generator.js`) are shallowly embedded below.  String-valued
primitives of JavaScript (`String.prototype.includes`, `trim`,
`toLowerCase`, `endsWith`, `slice`, `split`, `replace` with the concrete
regular expressions used by the code) are modelled as executable functions
on `List Char` / `String`.  The regular-expression *searches* of the
parser are modelled as oracle fields of a `ModelContent` record: the
`$fillable` array literal, the `$casts` array literal and the `$table`
assignment each hold exactly the capture data the corresponding regex
match delivers, while the relationship scan holds the source-order
skeleton of zero-argument method headers and relationship-call
occurrences over which the four global relationship regexes are executed
(`scanRelAux` reproduces their leftmost-match and `lastIndex` semantics,
including the attribution of a call to the leftmost unconsumed header).
The code that consumes those captures is translated line by line.
-/

namespace Laravel2ERD

/-- JavaScript `haystack.includes(needle)` on the character-list level:
`true` iff `needle` occurs contiguously in the haystack. -/
def jsIncludesL (needle : List Char) : List Char → Bool
  | [] => needle.isEmpty
  | c :: rest => needle.isPrefixOf (c :: rest) || jsIncludesL needle rest

/-- JavaScript `haystack.includes(needle)` for strings. -/
def jsIncludes (haystack needle : String) : Bool :=
  jsIncludesL needle.toList haystack.toList

/-- JavaScript `s.endsWith(suffix)`. -/
def jsEndsWith (s suffix : String) : Bool :=
  suffix.toList.isSuffixOf s.toList

/-- JavaScript `s.trim()`: drop whitespace from both ends. -/
def jsTrim (s : String) : String :=
  String.mk (((s.toList.dropWhile Char.isWhitespace).reverse.dropWhile
    Char.isWhitespace).reverse)

/-- JavaScript `s.toLowerCase()` (ASCII case folding). -/
def jsToLower (s : String) : String :=
  String.mk (s.toList.map Char.toLower)

/-- The single-quote character `'` (code point 39). -/
def quoteChar : Char := Char.ofNat 39

/-- The double-quote character (code point 34). -/
def dquoteChar : Char := Char.ofNat 34

/-- The backtick character (code point 96). -/
def backtickChar : Char := Char.ofNat 96

/-- JavaScript `s.replace(/'/g, '')`: remove every single quote. -/
def stripSingleQuotes (s : String) : String :=
  String.mk (s.toList.filter (fun ch => ch != quoteChar))

/-- One alternation arm of `replace(/::class|['"`]/g, '')` (parser.js line
115): remove every occurrence of the literal `::class`, scanning left to
right without rescanning, exactly as a global regex replace does. -/
def stripClassMarkerL : List Char → List Char
  | ':' :: ':' :: 'c' :: 'l' :: 'a' :: 's' :: 's' :: rest => stripClassMarkerL rest
  | c :: rest => c :: stripClassMarkerL rest
  | [] => []

/-- The other alternation arms of `replace(/::class|['"`]/g, '')`: remove
every quote character (single quote, double quote, backtick). -/
def stripQuoteChars (l : List Char) : List Char :=
  l.filter (fun ch => !(ch == quoteChar || ch == dquoteChar || ch == backtickChar))

/-- JavaScript `s.split('=>')` on the character-list level (used on cast
pairs, parser.js line 40). -/
def splitArrowL : List Char → List (List Char)
  | '=' :: '>' :: rest => [] :: splitArrowL rest
  | c :: rest =>
    match splitArrowL rest with
    | [] => [[c]]
    | h :: t => (c :: h) :: t
  | [] => [[]]

/-- The backslash character. -/
def backslashChar : Char := Char.ofNat 92

/-- JavaScript `s.split('\\')` on the character-list level (namespace
separator split, parser.js line 115). -/
def splitBackslashL : List Char → List (List Char)
  | [] => [[]]
  | c :: rest =>
    if c == backslashChar then [] :: splitBackslashL rest
    else
      match splitBackslashL rest with
      | [] => [[c]]
      | h :: t => (c :: h) :: t

/-- Attribute record produced by the parser
(`{ name, type, primary?, nullable? }`); the optional JavaScript fields
`primary` and `nullable` are modelled as booleans defaulting to `false`. -/
structure Attribute where
  name : String
  type : String
  primary : Bool := false
  nullable : Bool := false
  deriving DecidableEq

/-- Entity record produced by `parseModel`
(`{ name, attributes, tableName }`). -/
structure Entity where
  name : String
  attributes : List Attribute
  tableName : String
  deriving DecidableEq

/-- Relationship edge produced by `parseRelationships`; the JavaScript
fields `from` / `to` are named `fromName` / `toName` because `from` is a
Lean keyword. -/
structure Relationship where
  fromName : String
  toName : String
  name : String
  type : String
  deriving DecidableEq

/-- One element of the source-order skeleton that the relationship regex
of parser.js line 110 sees in the model text: a `header name` is an
occurrence of a zero-argument method header `function name() {` (capture
group 1 candidate), and a `call method arg` is an occurrence of
`$this->method(` — `method` one of the four relationship methods written
in full — whose first-argument capture `([^),]+)` succeeds, with `arg`
that captured text (up to the first `)` or `,`).  Occurrences whose
first-argument capture is empty can never be part of a match and are
omitted. -/
inductive SrcItem where
  | header (name : String)
  | call (method arg : String)
  deriving DecidableEq

/-- One model source file.  `text` is the raw PHP text (every
`content.includes(…)` test reads it); the remaining fields are the
oracle results of the regex matches the parser performs on that text:
`fillable` is `content.match(/protected\s+\$fillable\s*=\s*\[([\s\S]*?)\]/)`
followed by the inner `match(/'([^']+)'/g)` (so `none` = no `$fillable`
literal, `some toks` = the quoted tokens still carrying their quotes);
`castPairs` is the same for `$casts` with the inner
`match(/'([^']+)'\s*=>\s*'([^']+)'/g)` (matched pair strings, quotes
included); `table` is capture group 1 of the `$table` assignment match;
`relItems` is the source-order sequence of zero-argument method headers
and relationship-call occurrences that the four relationship regexes
scan (note the regexes attribute a call to the leftmost unconsumed
header, which need not be the header of the method that declares the
call). -/
structure ModelContent where
  text : String
  fillable : Option (List String)
  castPairs : Option (List String)
  table : Option String
  relItems : List SrcItem
  deriving DecidableEq

/-- Basic pluralization, parser.js lines 85–93: a trailing `y` becomes
`ies`, a trailing `s` is left alone, anything else gets `s` appended. -/
def pluralize (word : String) : String :=
  if jsEndsWith word "y" then String.mk word.toList.dropLast ++ "ies"
  else if jsEndsWith word "s" then word
  else word ++ "s"

/-- Table-name resolution, parser.js lines 72–80: the explicit
`protected $table = '…'` capture when present, otherwise
`pluralize(modelName.toLowerCase())`. -/
def extractTableName (c : ModelContent) (modelName : String) : String :=
  match c.table with
  | some t => t
  | none => pluralize (jsToLower modelName)

/-- Pieces of one matched cast pair after
`pair.replace(/'/g, '').split('=>').map(item => item.trim())`
(parser.js line 40). -/
def castParts (pair : String) : List String :=
  ((stripSingleQuotes pair).toList |> splitArrowL).map
    (fun cs => jsTrim (String.mk cs))

/-- The destructured `attr` of a cast pair (element 0 of `castParts`). -/
def castKey (pair : String) : String := (castParts pair).getD 0 ""

/-- The destructured `type` of a cast pair (element 1 of `castParts`);
JavaScript `undefined` (absent element) is modelled as `""`. -/
def castVal (pair : String) : String := (castParts pair).getD 1 ""

/-- Mutation `existingAttr.type = type` of parser.js line 45: set the
`type` of the first attribute called `key` (only the first, because
`Array.prototype.find` returns the first match). -/
def updateFirst (key ty : String) : List Attribute → List Attribute
  | [] => []
  | a :: rest =>
    if a.name = key then { a with type := ty } :: rest
    else a :: updateFirst key ty rest

/-- One iteration of the `castPairs.forEach` loop, parser.js lines 39–49:
find the existing attribute and overwrite its type, or push a new one. -/
def applyCast (attrs : List Attribute) (pair : String) : List Attribute :=
  let attr := castKey pair
  let ty := castVal pair
  if attrs.any (fun a => a.name = attr) then updateFirst attr ty attrs
  else attrs ++ [{ name := attr, type := ty }]

/-- Fillable-field extraction, parser.js lines 19–31: each quoted token
becomes an attribute with default type `string` (the state of
`entity.attributes` after the fillable block). -/
def fillableAttrs (c : ModelContent) : List Attribute :=
  match c.fillable with
  | some toks => toks.map (fun t => { name := stripSingleQuotes t, type := "string" })
  | none => []

/-- Cast-derived typing, parser.js lines 33–50: the state of
`entity.attributes` after the `castPairs.forEach` loop. -/
def castAttrs (c : ModelContent) : List Attribute :=
  match c.castPairs with
  | some pairs => pairs.foldl applyCast (fillableAttrs c)
  | none => fillableAttrs c

/-- Timestamp synthesis, parser.js lines 52–58: unconditionally push
`created_at` and `updated_at` unless the timestamps-off flag text is
present. -/
def timestampAttrs (c : ModelContent) : List Attribute :=
  if !jsIncludes c.text "public $timestamps = false" then
    castAttrs c ++ [{ name := "created_at", type := "timestamp" },
                    { name := "updated_at", type := "timestamp" }]
  else castAttrs c

/-- Identifier synthesis, parser.js lines 60–64: unshift an `id` field
unless one exists by name or a `$primaryKey` is declared. -/
def finalAttrs (c : ModelContent) : List Attribute :=
  if !(timestampAttrs c).any (fun a => a.name = "id") &&
     !jsIncludes c.text "protected $primaryKey" then
    { name := "id", type := "bigint", primary := true } :: timestampAttrs c
  else timestampAttrs c

/-- Entity extraction, parser.js lines 7–67 (`parseModel`); the
successive states of the mutated `entity.attributes` array are the named
stages `fillableAttrs` → `castAttrs` → `timestampAttrs` → `finalAttrs`. -/
def parseModel (modelName : String) (c : ModelContent) : Option Entity :=
  if jsIncludes c.text "abstract class" || !jsIncludes c.text "class" then
    none
  else
    some { name := modelName, attributes := finalAttrs c,
           tableName := extractTableName c modelName }

/-- Resolution of the related model name from a relationship call's first
argument, parser.js line 115:
`match[2].trim().replace(/::class|['"`]/g, '').split('\\').pop()`. -/
def resolveTarget (arg : String) : String :=
  let t := (jsTrim arg).toList
  let t := stripQuoteChars (stripClassMarkerL t)
  ((splitBackslashL t).map String.mk).getLastD ""

/-- The relation pattern table of parser.js lines 102–107, in source
order. -/
def relationTypes : List (String × String) :=
  [("hasOne", "1-1"), ("hasMany", "1-N"), ("belongsTo", "N-1"),
   ("belongsToMany", "N-N")]

/-- One `regex.exec` scan of the global relationship regex
`function\s+([a-zA-Z0-9_]+)\s*\(\s*\)\s*{[\s\S]*?\$this->M\s*\(\s*([^),]+)`
(parser.js lines 110–113) over the source skeleton, for relation method
`m`.  `pending` carries the leftmost zero-argument method header not yet
consumed by a match: a whole-pattern match must start at the leftmost
header from which the lazy `[\s\S]*?` gap can reach a `$this->m(` call,
so later headers inside the gap are skipped, the first `m`-call after
the pending header is captured with that header's name (group 1), and
`lastIndex` then moves past the captured argument, so the next match
needs a fresh header after this call.  A call with no header before it
(since the scan position) can never be matched. -/
def scanRelAux (m : String) (pending : Option String) :
    List SrcItem → List (String × String)
  | [] => []
  | SrcItem.header n :: rest =>
    match pending with
    | none => scanRelAux m (some n) rest
    | some n0 => scanRelAux m (some n0) rest
  | SrcItem.call m2 arg :: rest =>
    match pending with
    | none => scanRelAux m none rest
    | some n0 =>
      if m2 = m then (n0, arg) :: scanRelAux m none rest
      else scanRelAux m (some n0) rest

/-- All matches of one relation method's regex against a source
skeleton, in match (source) order: pairs of capture group 1 (the
attributed method name) and capture group 2 (the argument text). -/
def scanRel (m : String) (items : List SrcItem) : List (String × String) :=
  scanRelAux m none items

/-- Relationship extraction, parser.js lines 98–130
(`parseRelationships`).  The outer loop walks the pattern table; the
inner loop walks that method's regex matches in match order; an edge is
pushed unless the resolved target is the empty string.  The `entities`
argument is accepted (as in the source) but never read. -/
def parseRelationships (modelName : String) (c : ModelContent)
    (entities : List Entity) : List Relationship :=
  relationTypes.foldl
    (fun acc rt =>
      (scanRel rt.1 c.relItems).foldl
        (fun acc2 mt =>
          let relationName := mt.1
          let relatedModel := resolveTarget mt.2
          if relatedModel = "" then acc2
          else acc2 ++ [{ fromName := modelName, toName := relatedModel,
                          name := relationName, type := rt.2 }])
        acc)
    []


/-- Attribute line of the diagram (renderer.js lines 153–161):
`        <type> <name>[ PK][ NULL]\n`, with `attr.type || 'string'`
modelled by treating the empty string as the only falsy value of the
field. -/
def renderAttr (attr : Attribute) : String :=
  let typeDisplay := if attr.type = "" then "string" else attr.type
  let flagsDisplay := (if attr.primary then " PK" else "") ++
                      (if attr.nullable then " NULL" else "")
  "        " ++ typeDisplay ++ " " ++ attr.name ++ flagsDisplay ++ "\n"

/-- Entity block of the diagram (renderer.js lines 149–164). -/
def renderEntity (e : Entity) : String :=
  e.attributes.foldl (fun acc a => acc ++ renderAttr a)
    ("    " ++ e.name ++ " \x7b\n") ++ "    \x7d\n\n"

/-- Edge notation lookup of renderer.js lines 167–183: the switch over
the cardinality class, with `--` as the initial (default) symbol. -/
def relationSymbol (t : String) : String :=
  if t = "1-1" then "||--||"
  else if t = "1-N" then "||--o\x7b"
  else if t = "N-1" then "\x7do--||"
  else if t = "N-N" then "\x7do--o\x7b"
  else "--"

/-- Relationship line of the diagram (renderer.js line 185). -/
def renderRel (r : Relationship) : String :=
  "    " ++ r.fromName ++ " " ++ relationSymbol r.type ++ " " ++ r.toName ++
    " : \"" ++ r.name ++ "\"\n"

/-- Diagram rendering, renderer.js lines 142–189 (`renderERD`). -/
def renderERD (entities : List Entity) (relationships : List Relationship)
    (title : String) : String :=
  let m := "erDiagram\n" ++ "    %% " ++ title ++ "\n\n"
  let m := entities.foldl (fun acc e => acc ++ renderEntity e) m
  relationships.foldl (fun acc r => acc ++ renderRel r) m


def viewerChunk1 : String :=
  "<!DOCTYPE html>\n  <html lang=\"en\">\n  <head>\n      <meta charset=\"UTF-8\">\n      <meta name=\"viewport\" content=\"width=device-width, initial-scale=1.0\">\n      <title>"

def viewerChunk2 : String :=
  "</title>\n      <script src=\"https://cdn.jsdelivr.net/npm/mermaid/dist/mermaid.min.js\"></script>\n      <style>\n          body \x7b\n              font-family: -apple-system, BlinkMacSystemFont, \x27Segoe UI\x27, Roboto, Oxygen, Ubuntu, Cantarell, \x27Open Sans\x27, \x27Helvetica Neue\x27, sans-serif;\n              margin: 0;\n              padding: 0;\n              background-color: #f5f7fa;\n          \x7d\n          .container \x7b\n              max-width: 1200px;\n              margin: 0 auto;\n              padding: 20px;\n          \x7d\n          .header \x7b\n              background-color: #fff;\n              padding: 20px;\n              border-radius: 5px;\n              box-shadow: 0 2px 4px rgba(0, 0, 0, 0.1);\n              margin-bottom: 20px;\n          \x7d\n          .diagram-container \x7b\n              background-color: #fff;\n              padding: 20px;\n              border-radius: 5px;\n              box-shadow: 0 2px 4px rgba(0, 0, 0, 0.1);\n              overflow: auto;\n          \x7d\n          h1 \x7b\n              color: #2d3748;\n              margin-top: 0;\n          \x7d\n          .footer \x7b\n              margin-top: 20px;\n              text-align: center;\n              color: #718096;\n              font-size: 0.9rem;\n          \x7d\n          .controls \x7b\n              margin-bottom: 20px;\n          \x7d\n          button \x7b\n              background-color: #4a5568;\n              color: white;\n              border: none;\n              padding: 8px 16px;\n              border-radius: 4px;\n              cursor: pointer;\n              font-size: 14px;\n              margin-right: 10px;\n          \x7d\n          button:hover \x7b\n              background-color: #2d3748;\n          \x7d\n      </style>\n  </head>\n  <body>\n      <div class=\"container\">\n          <div class=\"header\">\n              <h1>"

def viewerChunk3 : String :=
  "</h1>\n              <p>Generated with @priom7/laravel2erd</p>\n          </div>\n          \n          <div class=\"controls\">\n              <button id=\"zoom-in\">Zoom In</button>\n              <button id=\"zoom-out\">Zoom Out</button>\n              <button id=\"reset-zoom\">Reset Zoom</button>\n              <button id=\"download-svg\">Download SVG</button>\n          </div>\n          \n          <div class=\"diagram-container\">\n              <div class=\"mermaid\" id=\"erd-diagram\">\n  "

def viewerChunk4 : String :=
  "\n              </div>\n          </div>\n          \n          <div class=\"footer\">\n              <p>Generated on "

def viewerChunk5 : String :=
  "</p>\n          </div>\n      </div>\n  \n      <script>\n          mermaid.initialize(\x7b\n              theme: \x27default\x27,\n              securityLevel: \x27loose\x27,\n              er: \x7b\n                  diagramPadding: 20\n              \x7d\n          \x7d);\n          \n          // Initialize zoom\n          let zoom = 1;\n          const zoomStep = 0.1;\n          const diagram = document.getElementById(\x27erd-diagram\x27);\n          \n          document.getElementById(\x27zoom-in\x27).addEventListener(\x27click\x27, () => \x7b\n              zoom += zoomStep;\n              diagram.style.transform = \x60scale($\x7bzoom\x7d)\x60;\n              diagram.style.transformOrigin = \x27top left\x27;\n          \x7d);\n          \n          document.getElementById(\x27zoom-out\x27).addEventListener(\x27click\x27, () => \x7b\n              if (zoom > zoomStep) \x7b\n                  zoom -= zoomStep;\n                  diagram.style.transform = \x60scale($\x7bzoom\x7d)\x60;\n                  diagram.style.transformOrigin = \x27top left\x27;\n              \x7d\n          \x7d);\n          \n          document.getElementById(\x27reset-zoom\x27).addEventListener(\x27click\x27, () => \x7b\n              zoom = 1;\n              diagram.style.transform = \x27scale(1)\x27;\n          \x7d);\n          \n          document.getElementById(\x27download-svg\x27).addEventListener(\x27click\x27, () => \x7b\n              const svg = document.querySelector(\x27.mermaid svg\x27);\n              if (svg) \x7b\n                  const svgData = new XMLSerializer().serializeToString(svg);\n                  const blob = new Blob([svgData], \x7b type: \x27image/svg+xml\x27 \x7d);\n                  const url = URL.createObjectURL(blob);\n                  \n                  const link = document.createElement(\x27a\x27);\n                  link.href = url;\n                  link.download = \x27laravel-erd.svg\x27;\n                  document.body.appendChild(link);\n                  link.click();\n                  document.body.removeChild(link);\n              \x7d\n          \x7d);\n      </script>\n  </body>\n  </html>"


/-- HTML viewer assembly, renderer.js lines 197–335 (`createViewer`).
The template literal is the concatenation of five constant chunks with
the two `${title}` splices, the `${diagram}` splice and the
`${new Date().toLocaleDateString()}` splice; the current date read from
the clock is passed in as the extra argument `dateStr`. -/
def createViewer (diagram title dateStr : String) : String :=
  viewerChunk1 ++ title ++ viewerChunk2 ++ title ++ viewerChunk3 ++
    diagram ++ viewerChunk4 ++ dateStr ++ viewerChunk5

/-- Record of one per-file failure pushed by the assembler
(`errors.push({ file, error })`, generator.js line 50). -/
structure UnitError where
  file : String
  error : String
  deriving DecidableEq

/-- Summary record returned by `generate` (generator.js lines 76–85):
`{ entities: { count, names }, relationships: { count }, errors }`. -/
structure GenResult where
  entityCount : Nat
  entityNames : List String
  relationshipCount : Nat
  errors : List UnitError
  deriving DecidableEq

/-- One scanned source unit of the assembler loop.  `file` is the glob
result path, `modelName` is `path.basename(file, '.php')`, and
`readResult` is the outcome of the fallible part of the loop body: `.ok`
carries the content delivered by `fs.readFile`, while `.error e` models a
unit whose read or extraction threw with message `e` (the `catch (err)`
of generator.js line 48). -/
structure SourceUnit where
  file : String
  modelName : String
  readResult : Except String ModelContent

/-- Model-likeness pre-filter, generator.js lines 94–116
(`isLikelyModelFile`). -/
def isLikelyModelFile (c : ModelContent) (filename : String) : Bool :=
  jsIncludes c.text "extends Model" ||
  jsIncludes c.text "extends Eloquent" ||
  jsIncludes c.text "extends \\Illuminate\\Database\\Eloquent\\Model" ||
  jsIncludes c.text "use HasFactory" ||
  jsIncludes c.text "use SoftDeletes" ||
  jsIncludes c.text "protected $table" ||
  jsIncludes c.text "protected $fillable" ||
  jsEndsWith filename "Model"

/-- Accumulator of the assembler loop (the `entities`, `relationships`
and `errors` arrays of generator.js lines 23–25). -/
structure GenState where
  entities : List Entity
  relationships : List Relationship
  errors : List UnitError
  deriving DecidableEq

/-- One iteration of the `for (const file of modelFiles)` loop,
generator.js lines 27–52: a thrown unit is recorded and skipped; a
surviving unit is pre-filtered, parsed, and (when an entity results)
appended, with relationship extraction run against the cumulative entity
list when requested. -/
def processUnit (includeRelations : Bool) (st : GenState) (u : SourceUnit) :
    GenState :=
  match u.readResult with
  | .error e => { st with errors := st.errors ++ [{ file := u.file, error := e }] }
  | .ok c =>
    if !isLikelyModelFile c u.modelName then st
    else
      match parseModel u.modelName c with
      | none => st
      | some ent =>
        let es := st.entities ++ [ent]
        let rels :=
          if includeRelations then
            st.relationships ++ parseRelationships u.modelName c es
          else st.relationships
        { st with entities := es, relationships := rels }

/-- Schema assembly, generator.js lines 12–86 (`generate`), up to the
summary record it returns; the rendering and file writes that follow the
entity check are output I/O on the accumulated data and do not affect
the returned summary or the thrown errors. -/
def generate (units : List SourceUnit) (includeRelations : Bool) :
    Except String GenResult :=
  if units.isEmpty then .error "No model files found"
  else
    let st := units.foldl (processUnit includeRelations) ⟨[], [], []⟩
    if st.entities.isEmpty then .error "No valid models found to generate ERD"
    else
      .ok { entityCount := st.entities.length,
            entityNames := st.entities.map (fun e => e.name),
            relationshipCount := st.relationships.length,
            errors := st.errors }

/-- Pre-built schema literal accepted by `generateFromSchema`; the
JavaScript `schema.entities || []` / `schema.relationships || []`
defaults are modelled with `Option` fields. -/
structure Schema where
  entities : Option (List Entity)
  relationships : Option (List Relationship)
  deriving DecidableEq

/-- Summary record returned by `generateFromSchema` (generator.js lines
146–154); it has no `errors` field. -/
structure SchemaGenResult where
  entityCount : Nat
  entityNames : List String
  relationshipCount : Nat
  deriving DecidableEq

/-- Schema-literal path, generator.js lines 125–155
(`generateFromSchema`), up to the summary record it returns. -/
def generateFromSchema (schema : Schema) : Except String SchemaGenResult :=
  let entities := schema.entities.getD []
  let relationships := schema.relationships.getD []
  if entities.isEmpty then .error "No entities defined in schema"
  else
    .ok { entityCount := entities.length,
          entityNames := entities.map (fun e => e.name),
          relationshipCount := relationships.length }

/-- Per-unit error record of the assembler loop: `some` exactly when the
unit threw, carrying the `{ file, error }` payload that is pushed. -/
def errOf (u : SourceUnit) : Option UnitError :=
  match u.readResult with
  | .error e => some { file := u.file, error := e }
  | .ok _ => none

/-- Per-unit extracted entity: `some` exactly when the unit read
successfully, passed the model-likeness pre-filter and parsed to an
entity. -/
def entOf (u : SourceUnit) : Option Entity :=
  match u.readResult with
  | .error _ => none
  | .ok c =>
    if !isLikelyModelFile c u.modelName then none
    else parseModel u.modelName c

/-- Attribute names contributed by the `$fillable` capture of a content
(each token with its quotes stripped, as parser.js line 27 does). -/
def fillableNames (c : ModelContent) : List String :=
  (c.fillable.getD []).map stripSingleQuotes

/-- Attribute keys contributed by the `$casts` capture of a content. -/
def castKeys (c : ModelContent) : List String :=
  (c.castPairs.getD []).map castKey

/-- Edges contributed by one relation method of the pattern table, in
match (source) order (specification-side regrouping of
`parseRelationships`, used to state its ordering property). -/
def relsFor (modelName method ty : String) (items : List SrcItem) :
    List Relationship :=
  (scanRel method items).filterMap (fun mt =>
    let relatedModel := resolveTarget mt.2
    if relatedModel = "" then none
    else some { fromName := modelName, toName := relatedModel,
                name := mt.1, type := ty })

/-- Model source with no `$table` assignment, no `$fillable`, no `$casts`
and no accessors. -/
def plainContent : ModelContent :=
  ⟨"class Status extends Model", none, none, none, []⟩

/-- Model source whose `$fillable` list itself declares `created_at`. -/
def timestampDupContent : ModelContent :=
  ⟨"class User extends Model \x7b protected $fillable = [\x27created_at\x27]; \x7d",
   some ["\x27created_at\x27"], none, none, []⟩

/-- Model source with one ordinary fillable field, no casts. -/
def postContent : ModelContent :=
  ⟨"class Post extends Model \x7b protected $fillable = [\x27title\x27]; \x7d",
   some ["\x27title\x27"], none, none, []⟩

/-- Entity extracted from `postContent`. -/
def postEntity : Entity :=
  ⟨"Post",
   [⟨"id", "bigint", true, false⟩, ⟨"title", "string", false, false⟩,
    ⟨"created_at", "timestamp", false, false⟩,
    ⟨"updated_at", "timestamp", false, false⟩],
   "posts"⟩

/-- Model source whose cast map retypes a fillable field with the cast
value `datetime` (the value the specification's table would translate to
`timestamp`). -/
def castDatetimeContent : ModelContent :=
  ⟨"class Event extends Model \x7b protected $fillable = [\x27published_at\x27]; protected $casts = [\x27published_at\x27 => \x27datetime\x27]; \x7d",
   some ["\x27published_at\x27"],
   some ["\x27published_at\x27 => \x27datetime\x27"], none, []⟩

/-- The single matched cast pair of `bookContent`. -/
def bookPair : String := "\x27title\x27 => \x27text\x27"

/-- Model source whose cast map retypes the fillable field `title`. -/
def bookContent : ModelContent :=
  ⟨"class Book extends Model \x7b protected $fillable = [\x27title\x27]; protected $casts = [\x27title\x27 => \x27text\x27]; \x7d",
   some ["\x27title\x27"], some [bookPair], none, []⟩

/-- Entity extracted from `bookContent`. -/
def bookEntity : Entity :=
  ⟨"Book",
   [⟨"id", "bigint", true, false⟩, ⟨"title", "text", false, false⟩,
    ⟨"created_at", "timestamp", false, false⟩,
    ⟨"updated_at", "timestamp", false, false⟩],
   "books"⟩

/-- Model source whose `$fillable` list repeats the same name. -/
def dupFillableContent : ModelContent :=
  ⟨"class Tag extends Model \x7b protected $fillable = [\x27a\x27, \x27a\x27]; \x7d",
   some ["\x27a\x27", "\x27a\x27"], none, none, []⟩

/-- Model source whose only zero-argument method is the accessor
`roles()` carrying the single `belongsToMany` call: skeleton
`header roles`, then `call belongsToMany App\Models\Role::class`. -/
def roleRelContent : ModelContent :=
  ⟨"class User extends Model \x7b public function roles() \x7b return $this->belongsToMany(App\\Models\\Role::class); \x7d \x7d",
   none, none, none,
   [SrcItem.header "roles",
    SrcItem.call "belongsToMany" "App\\Models\\Role::class"]⟩

/-- Model source whose first zero-argument method is the
non-relationship helper `scopeActive()` and whose later accessor
`roles()` declares the single `belongsToMany` call — skeleton
`header scopeActive`, `header roles`, `call belongsToMany …`, so the
nearest header before the call (its declaring accessor) is `roles`,
yet the regex match starts at the leftmost header `scopeActive`. -/
def scopedRoleContent : ModelContent :=
  ⟨"class User extends Model \x7b public function scopeActive() \x7b return $this->limit(10); \x7d public function roles() \x7b return $this->belongsToMany(App\\Models\\Role::class); \x7d \x7d",
   none, none, none,
   [SrcItem.header "scopeActive", SrcItem.header "roles",
    SrcItem.call "belongsToMany" "App\\Models\\Role::class"]⟩

/-- Model source declaring four relationship accessors, one per method,
in an order different from the pattern table's:
`owner()` with `belongsTo`, `tags()` with `belongsToMany`, `meta()` with
`hasOne`, `comments()` with `hasMany`.  Each of the four regex scans
starts its first match at the file's leftmost zero-argument header
`owner`, so every emitted edge is attributed the name `owner`. -/
def mixedRelContent : ModelContent :=
  ⟨"class Post extends Model \x7b public function owner() \x7b return $this->belongsTo(User::class); \x7d public function tags() \x7b return $this->belongsToMany(Tag::class); \x7d public function meta() \x7b return $this->hasOne(Meta::class); \x7d public function comments() \x7b return $this->hasMany(Comment::class); \x7d \x7d",
   none, none, none,
   [SrcItem.header "owner", SrcItem.call "belongsTo" "User::class",
    SrcItem.header "tags", SrcItem.call "belongsToMany" "Tag::class",
    SrcItem.header "meta", SrcItem.call "hasOne" "Meta::class",
    SrcItem.header "comments", SrcItem.call "hasMany" "Comment::class"]⟩

/-- An abstract class source. -/
def abstractContent : ModelContent :=
  ⟨"abstract class Shape \x7b \x7d", none, none, none, []⟩

/-- A unit whose read/extraction throws. -/
def brokenUnit : SourceUnit :=
  ⟨"app/Models/Broken.php", "Broken",
   Except.error "Cannot read properties of undefined"⟩

/-- Model source of a well-formed unit. -/
def userContent : ModelContent :=
  ⟨"class User extends Model \x7b protected $fillable = [\x27name\x27]; \x7d",
   some ["\x27name\x27"], none, none, []⟩

/-- A unit that reads and extracts successfully. -/
def userUnit : SourceUnit :=
  ⟨"app/Models/User.php", "User", Except.ok userContent⟩

/-- Entity extracted from `userContent`. -/
def userEntity : Entity :=
  ⟨"User",
   [⟨"id", "bigint", true, false⟩, ⟨"name", "string", false, false⟩,
    ⟨"created_at", "timestamp", false, false⟩,
    ⟨"updated_at", "timestamp", false, false⟩],
   "users"⟩

/-- Entity of the round-trip schema literal: one entity with a single
primary attribute. -/
def erdEntity : Entity := ⟨"User", [⟨"id", "bigint", true, false⟩], "users"⟩

/-- Diagram text of the round-trip schema literal. -/
def erdDiagram : String := renderERD [erdEntity] [] "My ERD"

/-- A list is a prefix of itself followed by anything. -/
theorem isPrefixOf_self_append (l s : List Char) :
    l.isPrefixOf (l ++ s) = true := by
  induction l with
  | nil => simp [List.isPrefixOf]
  | cons c cs ih => simp [List.isPrefixOf, ih]

/-- The empty needle is always included. -/
theorem jsIncludesL_nil (l : List Char) : jsIncludesL [] l = true := by
  cases l <;> simp [jsIncludesL, List.isPrefixOf]

/-- A contiguous occurrence makes `jsIncludesL` true. -/
theorem jsIncludesL_append (needle pre suf : List Char) :
    jsIncludesL needle (pre ++ needle ++ suf) = true := by
  induction pre with
  | nil =>
    cases needle with
    | nil => simpa using jsIncludesL_nil suf
    | cons n ns =>
      have h2 := isPrefixOf_self_append (n :: ns) suf
      simp only [List.cons_append, List.append_eq] at h2
      simp only [List.nil_append, List.cons_append, jsIncludesL, List.append_eq,
        h2, Bool.true_or]
  | cons c cs ih =>
    simp only [List.cons_append, jsIncludesL, List.append_eq, List.append_assoc] at ih ⊢
    simp [ih]

/-- String `toList` distributes over append. -/
theorem toList_append (a b : String) : (a ++ b).toList = a.toList ++ b.toList := by
  cases a
  cases b
  rfl

/-- The viewer document embeds the diagram text verbatim. -/
theorem createViewer_contains (d t ds : String) :
    jsIncludes (createViewer d t ds) d = true := by
  have h := jsIncludesL_append d.toList
    (viewerChunk1.toList ++ t.toList ++ viewerChunk2.toList ++ t.toList ++
      viewerChunk3.toList)
    (viewerChunk4.toList ++ ds.toList ++ viewerChunk5.toList)
  simp only [jsIncludes, createViewer, toList_append, List.append_assoc] at h ⊢
  exact h

/-- `updateFirst` does not change the attribute names. -/
theorem updateFirst_names (key ty : String) (l : List Attribute) :
    (updateFirst key ty l).map (fun a => a.name) = l.map (fun a => a.name) := by
  induction l with
  | nil => rfl
  | cons a rest ih =>
    by_cases h : a.name = key <;> simp [updateFirst, h, ih]

/-- An attribute with a different name survives `updateFirst` untouched. -/
theorem mem_updateFirst_of_ne {a : Attribute} {l : List Attribute}
    (key ty : String) (hm : a ∈ l) (hne : a.name ≠ key) :
    a ∈ updateFirst key ty l := by
  induction l with
  | nil => cases hm
  | cons b rest ih =>
    rcases List.mem_cons.mp hm with rfl | hm'
    · simp [updateFirst, hne]
    · by_cases h : b.name = key
      · simp only [updateFirst, if_pos h]
        exact List.mem_cons_of_mem _ hm'
      · simp only [updateFirst, if_neg h]
        exact List.mem_cons_of_mem _ (ih hm')

/-- After `updateFirst` on a list that has the key, some attribute carries
the key with the new type. -/
theorem exists_updateFirst {l : List Attribute} (key ty : String)
    (h : l.any (fun a => a.name = key) = true) :
    ∃ a ∈ updateFirst key ty l, a.name = key ∧ a.type = ty := by
  induction l with
  | nil => simp at h
  | cons b rest ih =>
    by_cases hb : b.name = key
    · exact ⟨{ b with type := ty }, by simp [updateFirst, hb], hb, rfl⟩
    · simp only [List.any_cons, Bool.or_eq_true, decide_eq_true_eq] at h
      rcases h with h | h
      · exact absurd h hb
      · obtain ⟨a, ham, hk, hty⟩ := ih h
        exact ⟨a, by simp [updateFirst, hb, ham], hk, hty⟩

/-- Every name after `applyCast` was already there or is the cast key. -/
theorem applyCast_names_subset (l : List Attribute) (p : String) :
    ∀ x ∈ (applyCast l p).map (fun a => a.name),
      x ∈ l.map (fun a => a.name) ∨ x = castKey p := by
  intro x hx
  by_cases h : l.any (fun a => a.name = castKey p)
  · rw [applyCast, if_pos h, updateFirst_names] at hx
    exact Or.inl hx
  · rw [applyCast, if_neg h] at hx
    simp only [List.map_append, List.mem_append, List.map_cons, List.map_nil,
      List.mem_singleton] at hx
    rcases hx with hx | hx
    · exact Or.inl hx
    · exact Or.inr hx

/-- `applyCast` preserves distinctness of the attribute names. -/
theorem applyCast_nodup {l : List Attribute} (p : String)
    (h : (l.map (fun a => a.name)).Nodup) :
    ((applyCast l p).map (fun a => a.name)).Nodup := by
  by_cases hm : l.any (fun a => a.name = castKey p)
  · rw [applyCast, if_pos hm, updateFirst_names]
    exact h
  · rw [applyCast, if_neg hm]
    simp only [List.map_append, List.map_cons, List.map_nil]
    rw [List.nodup_append]
    refine ⟨h, List.nodup_singleton _, ?_⟩
    intro x hx hx'
    simp only [List.mem_singleton] at hx'
    subst hx'
    simp only [List.any_eq_true, decide_eq_true_eq, not_exists, not_and] at hm
    obtain ⟨a, ham, hname⟩ := List.mem_map.mp hx
    exact hm a ham hname

/-- `applyCast` leaves some attribute carrying its own key and value. -/
theorem applyCast_establishes (l : List Attribute) (p : String) :
    ∃ a ∈ applyCast l p, a.name = castKey p ∧ a.type = castVal p := by
  by_cases hm : l.any (fun a => a.name = castKey p)
  · rw [applyCast, if_pos hm]
    exact exists_updateFirst _ _ hm
  · rw [applyCast, if_neg hm]
    exact ⟨{ name := castKey p, type := castVal p }, by simp, rfl, rfl⟩

/-- An attribute named differently from the cast key survives
`applyCast` as a member. -/
theorem applyCast_preserves {l : List Attribute} {a : Attribute} (p : String)
    (hne : a.name ≠ castKey p) (hm : a ∈ l) : a ∈ applyCast l p := by
  by_cases h : l.any (fun a => a.name = castKey p)
  · rw [applyCast, if_pos h]
    exact mem_updateFirst_of_ne _ _ hm hne
  · rw [applyCast, if_neg h]
    exact List.mem_append_left _ hm

/-- Every name after the cast fold was a fillable name or a cast key. -/
theorem castsFold_names_subset (pairs : List String) :
    ∀ (l : List Attribute), ∀ x ∈ ((pairs.foldl applyCast l).map (fun a => a.name)),
      x ∈ l.map (fun a => a.name) ∨ x ∈ pairs.map castKey := by
  induction pairs with
  | nil =>
    intro l x hx
    exact Or.inl (by simpa using hx)
  | cons p rest ih =>
    intro l x hx
    rw [List.foldl_cons] at hx
    rcases ih (applyCast l p) x hx with h | h
    · rcases applyCast_names_subset l p x h with h' | h'
      · exact Or.inl h'
      · exact Or.inr (by simp [h'])
    · exact Or.inr (by simp only [List.map_cons]; exact List.mem_cons_of_mem _ h)

/-- The cast fold preserves distinctness of the attribute names. -/
theorem castsFold_nodup (pairs : List String) :
    ∀ {l : List Attribute}, (l.map (fun a => a.name)).Nodup →
      ((pairs.foldl applyCast l).map (fun a => a.name)).Nodup := by
  induction pairs with
  | nil => intro l h; simpa using h
  | cons p rest ih =>
    intro l h
    rw [List.foldl_cons]
    exact ih (applyCast_nodup p h)

/-- A key/value witness survives the cast fold when no later pair
reassigns the same key. -/
theorem castsFold_establishes (l2 : List String) :
    ∀ (l : List Attribute) (key val : String),
      (∃ a ∈ l, a.name = key ∧ a.type = val) →
      key ∉ l2.map castKey →
      ∃ a ∈ l2.foldl applyCast l, a.name = key ∧ a.type = val := by
  induction l2 with
  | nil =>
    intro l key val h _
    simpa using h
  | cons p rest ih =>
    intro l key val h hnot
    rw [List.foldl_cons]
    have hne : key ≠ castKey p := by
      intro hk
      exact hnot (by simp [hk])
    obtain ⟨a, ham, hk, hv⟩ := h
    refine ih (applyCast l p) key val
      ⟨a, applyCast_preserves p (by rw [hk]; exact hne) ham, hk, hv⟩ ?_
    intro hmem
    exact hnot (by simp only [List.map_cons]; exact List.mem_cons_of_mem _ hmem)

/-- A successful parse fixes the three entity fields. -/
theorem parseModel_some {n : String} {c : ModelContent} {e : Entity}
    (he : parseModel n c = some e) :
    e.name = n ∧ e.attributes = finalAttrs c ∧
    e.tableName = extractTableName c n := by
  rw [parseModel] at he
  split at he
  · cases he
  · cases he
    exact ⟨rfl, rfl, rfl⟩

/-- Names appearing after the cast stage come from the fillable list or
the cast keys. -/
theorem castAttrs_names_subset (c : ModelContent) :
    ∀ x ∈ ((castAttrs c).map (fun a => a.name)),
      x ∈ fillableNames c ∨ x ∈ castKeys c := by
  intro x hx
  have hfill : (fillableAttrs c).map (fun a => a.name) = fillableNames c := by
    cases hf : c.fillable <;>
      simp [fillableAttrs, fillableNames, hf, List.map_map, Function.comp]
  rw [castAttrs] at hx
  cases hp : c.castPairs with
  | none =>
    rw [hp] at hx
    rw [hfill] at hx
    exact Or.inl hx
  | some pairs =>
    rw [hp] at hx
    rcases castsFold_names_subset pairs (fillableAttrs c) x hx with h | h
    · exact Or.inl (hfill ▸ h)
    · exact Or.inr (by simpa [castKeys, hp] using h)

/-- The cast stage keeps the fillable names distinct. -/
theorem castAttrs_nodup (c : ModelContent) (h : (fillableNames c).Nodup) :
    ((castAttrs c).map (fun a => a.name)).Nodup := by
  have hfill : (fillableAttrs c).map (fun a => a.name) = fillableNames c := by
    cases hf : c.fillable <;>
      simp [fillableAttrs, fillableNames, hf, List.map_map, Function.comp]
  rw [castAttrs]
  cases hp : c.castPairs with
  | none => rw [hfill]; exact h
  | some pairs => exact castsFold_nodup pairs (by rw [hfill]; exact h)

/-- The assembler loop accumulates exactly the per-unit entities and
per-unit error records, in input order, onto any starting state. -/
theorem generate_foldl (incl : Bool) (us : List SourceUnit) :
    ∀ (st : GenState),
      (us.foldl (processUnit incl) st).entities =
        st.entities ++ us.filterMap entOf ∧
      (us.foldl (processUnit incl) st).errors =
        st.errors ++ us.filterMap errOf := by
  induction us with
  | nil => intro st; simp
  | cons u rest ih =>
    intro st
    rw [List.foldl_cons]
    obtain ⟨ihe, ihr⟩ := ih (processUnit incl st u)
    constructor
    · rw [ihe]
      cases hr : u.readResult with
      | error e =>
        simp [processUnit, entOf, errOf, hr]
      | ok c =>
        by_cases hl : isLikelyModelFile c u.modelName
        · cases hp : parseModel u.modelName c with
          | none => simp [processUnit, entOf, hr, hl, hp]
          | some ent => simp [processUnit, entOf, hr, hl, hp]
        · simp [processUnit, entOf, hr, hl]
    · rw [ihr]
      cases hr : u.readResult with
      | error e =>
        simp [processUnit, entOf, errOf, hr]
      | ok c =>
        by_cases hl : isLikelyModelFile c u.modelName
        · cases hp : parseModel u.modelName c with
          | none => simp [processUnit, errOf, hr, hl, hp]
          | some ent => simp [processUnit, errOf, hr, hl, hp]
        · simp [processUnit, errOf, hr, hl]

/-- The inner match loop of `parseRelationships` appends exactly the
filtered edges of its match list to the accumulator. -/
theorem relationships_inner_foldl (modelName : String) (rt : String × String)
    (ms : List (String × String)) :
    ∀ (acc : List Relationship),
      ms.foldl
        (fun acc2 mt =>
          let relationName := mt.1
          let relatedModel := resolveTarget mt.2
          if relatedModel = "" then acc2
          else acc2 ++ [{ fromName := modelName, toName := relatedModel,
                          name := relationName, type := rt.2 }])
        acc =
      acc ++ ms.filterMap (fun mt =>
        let relatedModel := resolveTarget mt.2
        if relatedModel = "" then none
        else some { fromName := modelName, toName := relatedModel,
                    name := mt.1, type := rt.2 }) := by
  induction ms with
  | nil => intro acc; simp
  | cons mt rest ih =>
    intro acc
    rw [List.foldl_cons]
    by_cases hz : resolveTarget mt.2 = ""
    · simp [hz, ih, List.filterMap_cons]
    · simp [hz, ih, List.filterMap_cons]

/-- The relationship list decomposes into the four method groups in
pattern-table order. -/
theorem parseRelationships_eq_groups (modelName : String) (c : ModelContent)
    (entities : List Entity) :
    parseRelationships modelName c entities =
      relsFor modelName "hasOne" "1-1" c.relItems ++
      relsFor modelName "hasMany" "1-N" c.relItems ++
      relsFor modelName "belongsTo" "N-1" c.relItems ++
      relsFor modelName "belongsToMany" "N-N" c.relItems := by
  rw [parseRelationships, relationTypes]
  rw [List.foldl_cons, List.foldl_cons, List.foldl_cons, List.foldl_cons,
    List.foldl_nil]
  rw [relationships_inner_foldl modelName ("hasOne", "1-1")
    (scanRel "hasOne" c.relItems) []]
  rw [relationships_inner_foldl modelName ("hasMany", "1-N")
    (scanRel "hasMany" c.relItems) _]
  rw [relationships_inner_foldl modelName ("belongsTo", "N-1")
    (scanRel "belongsTo" c.relItems) _]
  rw [relationships_inner_foldl modelName ("belongsToMany", "N-N")
    (scanRel "belongsToMany" c.relItems) _]
  simp [relsFor, List.append_assoc]

/-- Every edge in a `relsFor` group carries that group's cardinality
class. -/
theorem relsFor_type {modelName method ty : String} {items : List SrcItem}
    {r : Relationship} (h : r ∈ relsFor modelName method ty items) :
    r.type = ty := by
  obtain ⟨mt, _, hsome⟩ := List.mem_filterMap.mp h
  by_cases hz : resolveTarget mt.2 = ""
  · simp only [hz, if_pos rfl] at hsome
    cases hsome
  · simp only [if_neg hz] at hsome
    cases hsome
    rfl

/-- Headers after the first leave the pending (leftmost) header of a
scan unchanged. -/
theorem scanRelAux_headers (m : String) (hs : List String) (n0 : String)
    (rest : List SrcItem) :
    scanRelAux m (some n0) (hs.map SrcItem.header ++ rest) =
      scanRelAux m (some n0) rest := by
  induction hs with
  | nil => rfl
  | cons h hs ih => simpa [scanRelAux] using ih

/-- A scan over headers followed by a single `belongsToMany` call
matches once for `belongsToMany` — attributing the first header's
name — and never for any other method. -/
theorem scanRel_headers_single_call (m : String) (h1 : String)
    (hs : List String) (arg : String) :
    scanRel m ((h1 :: hs).map SrcItem.header ++
        [SrcItem.call "belongsToMany" arg]) =
      if "belongsToMany" = m then [(h1, arg)] else [] := by
  rw [scanRel]
  simp only [List.map_cons, List.cons_append]
  rw [show scanRelAux m none
      (SrcItem.header h1 :: (hs.map SrcItem.header ++
        [SrcItem.call "belongsToMany" arg])) =
    scanRelAux m (some h1) (hs.map SrcItem.header ++
      [SrcItem.call "belongsToMany" arg]) from rfl]
  rw [scanRelAux_headers]
  by_cases hm : "belongsToMany" = m
  · rw [if_pos hm]
    simp [scanRelAux, hm]
  · rw [if_neg hm]
    simp [scanRelAux, hm]

/-- Claim C3 (counterexample): `pluralize` has no irregular-plural lookup
and no `es` suffix rule, so with no explicit table assignment the model
name `Status` resolves to table `status` (not `statuses`) and `Box` to
`boxs` (not `boxes`). -/
theorem C3_counterexample :
    plainContent.table = none ∧
    extractTableName plainContent "Status" = "status" ∧
    "status" ≠ "statuses" ∧
    extractTableName plainContent "Box" = "boxs" ∧
    "boxs" ≠ "boxes" :=
  ⟨rfl, by decide, by decide, by decide, by decide⟩

/-- Claim C3 (amended): for every model name with no explicit table-name
assignment, the resolved table name is the pluralization of the
lowercased name per the code's actual rules: a trailing `y` (with no
consonant test and no irregular lookup) is replaced by `ies`, a trailing
`s` leaves the word unchanged, and otherwise `s` is appended. -/
theorem C3_amended_pluralize (c : ModelContent) (name : String)
    (h : c.table = none) :
    extractTableName c name =
      (if jsEndsWith (jsToLower name) "y" then
        String.mk (jsToLower name).toList.dropLast ++ "ies"
      else if jsEndsWith (jsToLower name) "s" then jsToLower name
      else jsToLower name ++ "s") := by
  simp [extractTableName, h, pluralize]

/-- Witness for C3: the amended rules applied to the claim's example
names give `categories`, `countries`, `companies`, `cars`, but `status`
and `boxs`. -/
theorem C3_witness :
    extractTableName plainContent "Category" = "categories" ∧
    extractTableName plainContent "Country" = "countries" ∧
    extractTableName plainContent "Company" = "companies" ∧
    extractTableName plainContent "Car" = "cars" ∧
    extractTableName plainContent "Status" = "status" ∧
    extractTableName plainContent "Box" = "boxs" :=
  ⟨(C3_amended_pluralize plainContent "Category" rfl).trans (by decide),
   (C3_amended_pluralize plainContent "Country" rfl).trans (by decide),
   (C3_amended_pluralize plainContent "Company" rfl).trans (by decide),
   (C3_amended_pluralize plainContent "Car" rfl).trans (by decide),
   (C3_amended_pluralize plainContent "Status" rfl).trans (by decide),
   (C3_amended_pluralize plainContent "Box" rfl).trans (by decide)⟩

/-- Claim C5 (counterexample): the emitted edge's name is not the
declaring accessor's method name — in a unit whose first zero-argument
method is the non-relationship helper `scopeActive()` and whose
`belongsToMany` call sits in the later accessor `roles()` (the nearest
header before the call), the single `N-N` edge is named `scopeActive`,
because the regex match starts at the leftmost zero-argument method
header. -/
theorem C5_counterexample :
    scopedRoleContent.relItems =
      [SrcItem.header "scopeActive", SrcItem.header "roles",
       SrcItem.call "belongsToMany" "App\\Models\\Role::class"] ∧
    parseRelationships "User" scopedRoleContent [] =
      [{ fromName := "User", toName := "Role", name := "scopeActive",
         type := "N-N" }] ∧
    "scopeActive" ≠ "roles" :=
  ⟨rfl, by decide, by decide⟩

/-- Claim C5 (amended): for a source unit whose relationship calls
consist of a single `belongsToMany` occurrence with a resolvable
argument, preceded by one or more zero-argument method headers,
`parseRelationships` emits exactly one edge of type `N-N`, from the
unit's symbolic name, pointing at the argument's resolved target
(trailing `::class` marker and quote characters stripped, final
namespace segment taken — `resolveTarget`), and named after the
unit's first zero-argument method header — which equals the declaring
accessor's name only when that accessor is the first zero-argument
method. -/
theorem C5_amended_leftmost_header_name (n : String) (c : ModelContent)
    (es : List Entity) (h1 : String) (hs : List String) (arg : String)
    (hitems : c.relItems = (h1 :: hs).map SrcItem.header ++
      [SrcItem.call "belongsToMany" arg])
    (hr : resolveTarget arg ≠ "") :
    parseRelationships n c es =
      [{ fromName := n, toName := resolveTarget arg,
         name := h1, type := "N-N" }] := by
  rw [parseRelationships_eq_groups, hitems]
  rw [relsFor, relsFor, relsFor, relsFor,
    scanRel_headers_single_call, scanRel_headers_single_call,
    scanRel_headers_single_call, scanRel_headers_single_call]
  simp [hr]

/-- Witness for C5: when the single accessor `roles()` is also the
unit's first zero-argument method, the edge `User —N-N→ Role` is named
`roles`. -/
theorem C5_witness :
    parseRelationships "User" roleRelContent [] =
      [{ fromName := "User", toName := "Role", name := "roles",
         type := "N-N" }] := by
  have h := C5_amended_leftmost_header_name "User" roleRelContent []
    "roles" [] "App\\Models\\Role::class" rfl (by decide)
  exact h.trans (by decide)

/-- Claim C8: `parseModel` returns `none` exactly when the source text
contains the substring `abstract class` or lacks the substring `class`;
every other source yields an entity. -/
theorem C8_parseModel_none_iff (n : String) (c : ModelContent) :
    parseModel n c = none ↔
      (jsIncludes c.text "abstract class" = true ∨
       jsIncludes c.text "class" = false) := by
  rw [parseModel]
  split
  next h =>
    exact iff_of_true rfl
      (by simpa [Bool.or_eq_true, Bool.not_eq_true'] using h)
  next h =>
    exact iff_of_false (by simp)
      (by simpa [Bool.or_eq_true, Bool.not_eq_true'] using h)

/-- Witness for C8: an abstract class source parses to `none`. -/
theorem C8_witness : parseModel "Shape" abstractContent = none :=
  (C8_parseModel_none_iff "Shape" abstractContent).mpr (Or.inl (by decide))

/-- Claim C9: rendering the one-entity schema literal and re-embedding it
with `createViewer` reproduces the diagram text verbatim inside the
document, including the entity block header line and the exact attribute
line `bigint id PK`. -/
theorem C9_roundtrip_viewer_embeds_diagram :
    jsIncludes (createViewer erdDiagram "My ERD" "4/20/2025") erdDiagram = true ∧
    jsIncludes erdDiagram "    User \x7b\n" = true ∧
    jsIncludes erdDiagram "        bigint id PK\n" = true :=
  ⟨createViewer_contains erdDiagram "My ERD" "4/20/2025", by decide, by decide⟩

/-- Claim C10 (implicit): the relationship list is grouped by relation
method in pattern-table order — all `hasOne` (`1-1`) edges first, then
`hasMany` (`1-N`), then `belongsTo` (`N-1`), then `belongsToMany`
(`N-N`) — each group listing its regex matches in source (match) order
(`relsFor` is an order-preserving filter over that method's scan). -/
theorem C10_relationships_grouped_by_method (n : String) (c : ModelContent)
    (es : List Entity) :
    parseRelationships n c es =
      relsFor n "hasOne" "1-1" c.relItems ++
      relsFor n "hasMany" "1-N" c.relItems ++
      relsFor n "belongsTo" "N-1" c.relItems ++
      relsFor n "belongsToMany" "N-N" c.relItems ∧
    (∀ r ∈ relsFor n "hasOne" "1-1" c.relItems, r.type = "1-1") ∧
    (∀ r ∈ relsFor n "hasMany" "1-N" c.relItems, r.type = "1-N") ∧
    (∀ r ∈ relsFor n "belongsTo" "N-1" c.relItems, r.type = "N-1") ∧
    (∀ r ∈ relsFor n "belongsToMany" "N-N" c.relItems, r.type = "N-N") :=
  ⟨parseRelationships_eq_groups n c es,
   fun _ h => relsFor_type h, fun _ h => relsFor_type h,
   fun _ h => relsFor_type h, fun _ h => relsFor_type h⟩

/-- Witness for C10: four accessors declared in the source order
`belongsTo`, `belongsToMany`, `hasOne`, `hasMany` come out regrouped as
`1-1`, `1-N`, `N-1`, `N-N` (every edge attributed the name of the
file's first zero-argument header, `owner`). -/
theorem C10_witness :
    parseRelationships "Post" mixedRelContent [] =
      [⟨"Post", "Meta", "owner", "1-1"⟩,
       ⟨"Post", "Comment", "owner", "1-N"⟩,
       ⟨"Post", "User", "owner", "N-1"⟩,
       ⟨"Post", "Tag", "owner", "N-N"⟩] := by
  have h := (C10_relationships_grouped_by_method "Post" mixedRelContent []).1
  exact h.trans (by decide)

/-- Claim C6: a source unit that throws during extraction is recorded as
`{file, error}` in the returned `errors` list, the batch continues, and
every entity successfully extracted from any other unit still appears in
the final result. -/
theorem C6_error_recorded_batch_continues (us : List SourceUnit)
    (incl : Bool) (u : SourceUnit) (e : String) (u' : SourceUnit)
    (ent : Entity) (hu : u ∈ us) (he : u.readResult = Except.error e)
    (hu' : u' ∈ us) (hent : entOf u' = some ent) :
    ∃ r, generate us incl = Except.ok r ∧
      ({ file := u.file, error := e } : UnitError) ∈ r.errors ∧
      ent.name ∈ r.entityNames := by
  obtain ⟨hents, herrs⟩ := generate_foldl incl us ⟨[], [], []⟩
  have hmem_ent : ent ∈ us.filterMap entOf :=
    List.mem_filterMap.mpr ⟨u', hu', hent⟩
  have hEmpty : us.isEmpty = false := by
    cases us with
    | nil => cases hu
    | cons _ _ => rfl
  have hz : (us.foldl (processUnit incl) ⟨[], [], []⟩).entities.isEmpty = false := by
    rw [hents]
    simp only [List.nil_append]
    rcases h : us.filterMap entOf with _ | ⟨_, _⟩
    · rw [h] at hmem_ent
      cases hmem_ent
    · rfl
  rw [generate, if_neg (by simp [hEmpty]), if_neg (by simp [hz])]
  refine ⟨_, rfl, ?_, ?_⟩
  · rw [herrs]
    simp only [List.nil_append]
    exact List.mem_filterMap.mpr ⟨u, hu, by rw [errOf, he]⟩
  · rw [hents]
    simp only [List.nil_append]
    exact List.mem_map_of_mem _ hmem_ent

/-- Witness for C6: a two-unit batch with one throwing unit and one
well-formed model succeeds, records the thrown unit's file and message,
and still lists the other unit's entity. -/
theorem C6_witness :
    ∃ r, generate [brokenUnit, userUnit] true = Except.ok r ∧
      ({ file := "app/Models/Broken.php",
         error := "Cannot read properties of undefined" } : UnitError) ∈ r.errors ∧
      "User" ∈ r.entityNames :=
  C6_error_recorded_batch_continues [brokenUnit, userUnit] true
    brokenUnit "Cannot read properties of undefined" userUnit userEntity
    (List.mem_cons_self _ _) rfl
    (List.mem_cons_of_mem _ (List.mem_cons_self _ _)) (by decide)

/-- Claim C7: the run fails exactly when zero usable entities result —
`generate` returns an error iff no unit yields an entity (per-file
errors alone never fail the run), and `generateFromSchema` returns an
error iff its entity collection is empty. -/
theorem C7_fail_iff_no_entities (us : List SourceUnit) (incl : Bool)
    (s : Schema) :
    ((generate us incl).toOption = none ↔ us.filterMap entOf = []) ∧
    ((generateFromSchema s).toOption = none ↔ s.entities.getD [] = []) := by
  constructor
  · rw [generate]
    by_cases hu : us.isEmpty
    · rw [if_pos hu]
      have : us = [] := List.isEmpty_iff.mp hu
      subst this
      simp [Except.toOption]
    · rw [if_neg hu]
      obtain ⟨hents, -⟩ := generate_foldl incl us ⟨[], [], []⟩
      by_cases hz : (us.foldl (processUnit incl) ⟨[], [], []⟩).entities.isEmpty
      · rw [if_pos hz]
        have h1 : us.filterMap entOf = [] := by
          have := List.isEmpty_iff.mp hz
          rw [hents] at this
          simpa using this
        simp [Except.toOption, h1]
      · rw [if_neg hz]
        have h1 : us.filterMap entOf ≠ [] := by
          intro h
          apply hz
          rw [List.isEmpty_iff, hents, h]
          rfl
        simp [Except.toOption, h1]
  · rw [generateFromSchema]
    by_cases he : (s.entities.getD []).isEmpty
    · rw [if_pos he]
      simp [Except.toOption, List.isEmpty_iff.mp he]
    · rw [if_neg he]
      have h1 : s.entities.getD [] ≠ [] := by
        intro h
        exact he (by rw [List.isEmpty_iff, h])
      simp [Except.toOption, h1]

/-- Witness for C7: the empty batch fails, and the empty schema literal
fails. -/
theorem C7_witness :
    (generate [] true).toOption = none ∧
    (generateFromSchema ⟨none, none⟩).toOption = none :=
  ⟨(C7_fail_iff_no_entities [] true ⟨none, none⟩).1.mpr rfl,
   (C7_fail_iff_no_entities [] true ⟨none, none⟩).2.mpr rfl⟩

/-- Claim C1 (counterexample): timestamp synthesis performs no
skip-if-exists check — on a source without the timestamps-off flag whose
fillable list already declares `created_at`, the extracted entity holds
two attributes named `created_at`, not exactly one. -/
theorem C1_counterexample :
    jsIncludes timestampDupContent.text "public $timestamps = false" = false ∧
    (parseModel "User" timestampDupContent).map
      (fun e => e.attributes.countP (fun a => a.name == "created_at")) =
      some 2 :=
  ⟨by decide, by decide⟩

/-- Claim C1 (amended): unless the timestamps-off flag text is present,
`parseModel` appends `created_at` and `updated_at` as `timestamp` fields
unconditionally (no skip when the name already exists); when neither
name already arises from the fillable list or the cast keys, the entity
therefore contains exactly one attribute of each name, of type
`timestamp`.  Extraction is a pure function of its input, hence
idempotent. -/
theorem C1_amended_timestamps (n : String) (c : ModelContent) (e : Entity)
    (he : parseModel n c = some e)
    (hflag : jsIncludes c.text "public $timestamps = false" = false)
    (hcf : "created_at" ∉ fillableNames c) (hck : "created_at" ∉ castKeys c)
    (huf : "updated_at" ∉ fillableNames c) (huk : "updated_at" ∉ castKeys c) :
    e.attributes.countP (fun a => a.name == "created_at") = 1 ∧
    e.attributes.countP
      (fun a => a.name == "created_at" && a.type == "timestamp") = 1 ∧
    e.attributes.countP (fun a => a.name == "updated_at") = 1 ∧
    e.attributes.countP
      (fun a => a.name == "updated_at" && a.type == "timestamp") = 1 := by
  obtain ⟨-, hattrs, -⟩ := parseModel_some he
  rw [hattrs]
  have hc : ∀ a ∈ castAttrs c, a.name ≠ "created_at" := by
    intro a ha hna
    rcases castAttrs_names_subset c a.name
      (List.mem_map_of_mem _ ha) with h | h
    · exact hcf (hna ▸ h)
    · exact hck (hna ▸ h)
  have hu : ∀ a ∈ castAttrs c, a.name ≠ "updated_at" := by
    intro a ha hna
    rcases castAttrs_names_subset c a.name
      (List.mem_map_of_mem _ ha) with h | h
    · exact huf (hna ▸ h)
    · exact huk (hna ▸ h)
  have ht : timestampAttrs c =
      castAttrs c ++ [{ name := "created_at", type := "timestamp" },
                      { name := "updated_at", type := "timestamp" }] := by
    rw [timestampAttrs, hflag]
    rfl
  have hcount : ∀ (p : Attribute → Bool),
      p { name := "id", type := "bigint", primary := true } = false →
      (finalAttrs c).countP p = (timestampAttrs c).countP p := by
    intro p hp
    rw [finalAttrs]
    split
    · refine List.countP_cons_of_neg p (timestampAttrs c) ?_
      intro hx
      rw [hp] at hx
      cases hx
    · rfl
  have hzc : (castAttrs c).countP (fun a => a.name == "created_at") = 0 :=
    List.countP_eq_zero.mpr (fun a ha h => hc a ha (by simpa using h))
  have hzc2 : (castAttrs c).countP
      (fun a => a.name == "created_at" && a.type == "timestamp") = 0 :=
    List.countP_eq_zero.mpr (fun a ha h => by
      simp only [Bool.and_eq_true, beq_iff_eq] at h
      exact hc a ha h.1)
  have hzu : (castAttrs c).countP (fun a => a.name == "updated_at") = 0 :=
    List.countP_eq_zero.mpr (fun a ha h => hu a ha (by simpa using h))
  have hzu2 : (castAttrs c).countP
      (fun a => a.name == "updated_at" && a.type == "timestamp") = 0 :=
    List.countP_eq_zero.mpr (fun a ha h => by
      simp only [Bool.and_eq_true, beq_iff_eq] at h
      exact hu a ha h.1)
  refine ⟨?_, ?_, ?_, ?_⟩ <;>
    rw [hcount _ (by decide), ht, List.countP_append]
  · rw [hzc]; decide
  · rw [hzc2]; decide
  · rw [hzu]; decide
  · rw [hzu2]; decide

/-- Witness for C1: a model with one ordinary fillable field gets exactly
one `created_at` and one `updated_at`, both `timestamp`. -/
theorem C1_witness :
    parseModel "Post" postContent = some postEntity ∧
    postEntity.attributes.countP (fun a => a.name == "created_at") = 1 ∧
    postEntity.attributes.countP
      (fun a => a.name == "created_at" && a.type == "timestamp") = 1 ∧
    postEntity.attributes.countP (fun a => a.name == "updated_at") = 1 ∧
    postEntity.attributes.countP
      (fun a => a.name == "updated_at" && a.type == "timestamp") = 1 := by
  have h := C1_amended_timestamps "Post" postContent postEntity
    (by decide) (by decide) (by decide) (by decide) (by decide) (by decide)
  exact ⟨by decide, h.1, h.2.1, h.2.2.1, h.2.2.2⟩

/-- Claim C2 (counterexample): there is no cast-type translation table —
a cast value `datetime` is stored verbatim as the attribute type
`datetime`, not mapped to `timestamp`. -/
theorem C2_counterexample :
    (parseModel "Event" castDatetimeContent).map
      (fun e => e.attributes.filterMap
        (fun a => if a.name == "published_at" then some a.type else none)) =
      some ["datetime"] ∧
    "datetime" ≠ "timestamp" :=
  ⟨by decide, by decide⟩

/-- Claim C2 (amended): for every processed cast pair whose key is not
reassigned by a later pair, the entity carries an attribute named by the
pair's key whose type is the pair's raw cast value taken verbatim (no
translation table); in particular a field in both the fillable list and
the cast map ends with the raw cast value, not the default `string`
(unless the cast value is itself `string`). -/
theorem C2_amended_cast_verbatim (n : String) (c : ModelContent)
    (e : Entity) (l1 : List String) (p : String) (l2 : List String)
    (he : parseModel n c = some e)
    (hpairs : c.castPairs = some (l1 ++ p :: l2))
    (hlast : castKey p ∉ l2.map castKey) :
    ∃ a ∈ e.attributes, a.name = castKey p ∧ a.type = castVal p := by
  obtain ⟨-, hattrs, -⟩ := parseModel_some he
  rw [hattrs]
  have hca : ∃ a ∈ castAttrs c, a.name = castKey p ∧ a.type = castVal p := by
    rw [castAttrs, hpairs]
    dsimp only
    rw [List.foldl_append, List.foldl_cons]
    exact castsFold_establishes l2 _ (castKey p) (castVal p)
      (applyCast_establishes (l1.foldl applyCast (fillableAttrs c)) p) hlast
  obtain ⟨a, ha, hk, hv⟩ := hca
  have ht : a ∈ timestampAttrs c := by
    rw [timestampAttrs]
    split
    · exact List.mem_append_left _ ha
    · exact ha
  have hf : a ∈ finalAttrs c := by
    rw [finalAttrs]
    split
    · exact List.mem_cons_of_mem _ ht
    · exact ht
  exact ⟨a, hf, hk, hv⟩

/-- Witness for C2: the cast pair `'title' => 'text'` over a fillable
field `title` ends as an attribute `title : text`. -/
theorem C2_witness :
    parseModel "Book" bookContent = some bookEntity ∧
    castKey bookPair = "title" ∧ castVal bookPair = "text" ∧
    ∃ a ∈ bookEntity.attributes,
      a.name = castKey bookPair ∧ a.type = castVal bookPair :=
  ⟨by decide, by decide, by decide,
   C2_amended_cast_verbatim "Book" bookContent bookEntity [] bookPair []
     (by decide) rfl (by decide)⟩

/-- Claim C4 (counterexample): the no-duplicate-name invariant fails — a
fillable list repeating a name yields two attribute rows with that
name. -/
theorem C4_counterexample :
    (parseModel "Tag" dupFillableContent).map
      (fun e => e.attributes.countP (fun a => a.name == "a")) = some 2 ∧
    dupFillableContent.fillable = some ["\x27a\x27", "\x27a\x27"] :=
  ⟨by decide, rfl⟩

/-- Claim C4 (amended): no two attributes of an extracted entity share a
name provided the fillable names are pairwise distinct and neither
`created_at` nor `updated_at` occurs among the fillable names or cast
keys; cast declarations alone never duplicate (they override the first
attribute of their name in place), and the `id` unshift is guarded by an
existence check. -/
theorem C4_amended_nodup (n : String) (c : ModelContent) (e : Entity)
    (he : parseModel n c = some e)
    (hf : (fillableNames c).Nodup)
    (hcf : "created_at" ∉ fillableNames c) (hck : "created_at" ∉ castKeys c)
    (huf : "updated_at" ∉ fillableNames c) (huk : "updated_at" ∉ castKeys c) :
    (e.attributes.map (fun a => a.name)).Nodup := by
  obtain ⟨-, hattrs, -⟩ := parseModel_some he
  rw [hattrs]
  have hcast := castAttrs_nodup c hf
  have hnotc : "created_at" ∉ (castAttrs c).map (fun a => a.name) := by
    intro h
    rcases castAttrs_names_subset c _ h with h' | h'
    · exact hcf h'
    · exact hck h'
  have hnotu : "updated_at" ∉ (castAttrs c).map (fun a => a.name) := by
    intro h
    rcases castAttrs_names_subset c _ h with h' | h'
    · exact huf h'
    · exact huk h'
  have ht : ((timestampAttrs c).map (fun a => a.name)).Nodup := by
    rw [timestampAttrs]
    split
    · simp only [List.map_append, List.map_cons, List.map_nil]
      rw [List.nodup_append]
      refine ⟨hcast, by decide, ?_⟩
      intro x hx hx'
      simp only [List.mem_cons, List.not_mem_nil, or_false] at hx'
      rcases hx' with rfl | rfl
      · exact hnotc hx
      · exact hnotu hx
    · exact hcast
  rw [finalAttrs]
  split
  next h =>
    simp only [List.map_cons]
    refine List.nodup_cons.mpr ⟨?_, ht⟩
    intro hmem
    obtain ⟨hany, -⟩ := Bool.and_eq_true_iff.mp h
    obtain ⟨a, ha, hname⟩ := List.mem_map.mp hmem
    have : (timestampAttrs c).any (fun a => a.name = "id") = true :=
      List.any_eq_true.mpr ⟨a, ha, by simp [hname]⟩
    rw [this] at hany
    cases hany
  next =>
    exact ht

/-- Witness for C4: the attribute names of the `postContent` entity are
pairwise distinct. -/
theorem C4_witness : (postEntity.attributes.map (fun a => a.name)).Nodup :=
  C4_amended_nodup "Post" postContent postEntity
    (by decide) (by decide) (by decide) (by decide) (by decide) (by decide)

end Laravel2ERD
